import Mathlib

/-!
Shallow embedding of the four-layer deduplication engine of
`src/src/dedup_engine.py` (class `DedupEngine`), together with proofs of
the specification claims about it.

A candidate resource is a JSON-like dict; the engine reads the fields
`name`, `url`, `description` and `category` with `dict.get(key, "")`,
so each field is modelled as an `Option String` defaulting to `""`.
The sentence-transformer embedding model is external to the repository;
the semantic layer is therefore parameterised by a similarity oracle
`sim : String → String → ℚ` standing for the dot product of the
L2-normalised embeddings of the two texts.
-/

/-- A candidate resource: the four dict fields the engine reads, each
possibly missing (Python `resource.get(key, "")`). -/
structure Resource where
  name : Option String
  url : Option String
  description : Option String
  category : Option String
deriving DecidableEq

/-- `resource.get("name", "")`. -/
def Resource.getName (r : Resource) : String := r.name.getD ""

/-- `resource.get("url", "")`. -/
def Resource.getUrl (r : Resource) : String := r.url.getD ""

/-- `resource.get("description", "")`. -/
def Resource.getDescription (r : Resource) : String := r.description.getD ""

/-- `resource.get("category", "")`. -/
def Resource.getCategory (r : Resource) : String := r.category.getD ""

/-- Python `str.lower()` (ASCII case mapping, which covers every string
the repository compares). -/
def pyLower (s : String) : String := ⟨s.data.map Char.toLower⟩

/-- Python `str.strip()`: remove leading and trailing whitespace. -/
def pyStrip (s : String) : String :=
  ⟨((s.data.dropWhile Char.isWhitespace).reverse.dropWhile Char.isWhitespace).reverse⟩

/-- Character-level Levenshtein edit distance (textbook recurrence),
the function computed by `Levenshtein.distance` in the source; the fuel
argument only makes the recursion structural and never runs out when it
starts at `xs.length + ys.length`. -/
def levFuel : Nat → List Char → List Char → Nat
  | _, [], ys => ys.length
  | _, x :: xs, [] => (x :: xs).length
  | 0, _ :: _, _ :: _ => 0
  | fuel + 1, x :: xs, y :: ys =>
    if x = y then levFuel fuel xs ys
    else 1 + min (levFuel fuel xs ys)
          (min (levFuel fuel (x :: xs) ys) (levFuel fuel xs (y :: ys)))

/-- `Levenshtein.distance` on strings. -/
def levenshteinDistance (a b : String) : Nat :=
  levFuel (a.data.length + b.data.length) a.data b.data

/-- Characters Python's `urllib.parse` accepts inside a URL scheme. -/
def isSchemeChar (c : Char) : Bool := c.isAlphanum || c == '+' || c == '-' || c == '.'

/-- Whether a candidate scheme component is valid per `urllib.parse`
(non-empty, starts with a letter, all scheme characters). -/
def validScheme (pre : List Char) : Bool :=
  match pre with
  | [] => false
  | c :: rest => c.isAlpha && (c :: rest).all isSchemeChar

/-- Models the scheme-splitting step of Python `urllib.parse.urlparse`:
drop a leading `scheme:` when the part before the first colon is a valid
scheme; otherwise leave the string unchanged. -/
def stripScheme (cs : List Char) : List Char :=
  let pre := cs.takeWhile (fun c => c != ':')
  match cs.dropWhile (fun c => c != ':') with
  | [] => cs
  | _ :: rest => if validScheme pre then rest else cs

/-- Models the netloc/path extraction of Python `urllib.parse.urlparse`
on the scheme-stripped remainder: a netloc is present only after `//`
and extends to the next `/`, `?` or `#`; the path extends to the next
`?` or `#`. Parameters (`;`) are not split off, which agrees with
`urlparse` on all URLs without `;` in the last path segment. -/
def netlocPath (cs : List Char) : List Char × List Char :=
  match cs with
  | '/' :: '/' :: rest =>
    let netloc := rest.takeWhile (fun c => c != '/' && c != '?' && c != '#')
    let after := rest.dropWhile (fun c => c != '/' && c != '?' && c != '#')
    (netloc, after.takeWhile (fun c => c != '?' && c != '#'))
  | _ => ([], cs.takeWhile (fun c => c != '?' && c != '#'))

/-- `urlparse(url).netloc`. -/
def urlNetloc (url : String) : String := ⟨(netlocPath (stripScheme url.data)).1⟩

/-- `urlparse(url).path`. -/
def urlPath (url : String) : String := ⟨(netlocPath (stripScheme url.data)).2⟩

/-- Lowercase a netloc and remove a leading `www.`, the domain
normalisation shared by `_get_canonical_url` and `_get_hostname`. -/
def normalizeDomain (netloc : List Char) : List Char :=
  let domain := netloc.map Char.toLower
  if domain.take 4 = ['w', 'w', 'w', '.'] then domain.drop 4 else domain

/-- `DedupEngine._get_canonical_url`: lowercased netloc with a leading
`www.` removed, concatenated with the lowercased path stripped of
trailing slashes (`parsed.path.rstrip("/").lower()`). -/
def getCanonicalUrl (url : String) : String :=
  let np := netlocPath (stripScheme url.data)
  let path := (((np.2.reverse.dropWhile (fun c => c == '/')).reverse).map Char.toLower)
  ⟨normalizeDomain np.1 ++ path⟩

/-- `DedupEngine._get_hostname`: lowercased netloc with a leading
`www.` removed. -/
def getHostname (url : String) : String :=
  ⟨normalizeDomain (netlocPath (stripScheme url.data)).1⟩

/-- Loop of `DedupEngine._dedup_by_case`, with the `seen_titles` set
made explicit.  Returns `(deduplicated, duplicates)`. -/
def dedupByCaseAux : List Resource → List String → List Resource × List Resource
  | [], _ => ([], [])
  | r :: rs, seen =>
    if pyLower r.getName ∈ seen then
      ((dedupByCaseAux rs seen).1, r :: (dedupByCaseAux rs seen).2)
    else
      (r :: (dedupByCaseAux rs (pyLower r.getName :: seen)).1,
       (dedupByCaseAux rs (pyLower r.getName :: seen)).2)

/-- `DedupEngine._dedup_by_case`. -/
def dedupByCase (l : List Resource) : List Resource × List Resource :=
  dedupByCaseAux l []

/-- The per-candidate threshold of `DedupEngine._dedup_by_levenshtein`:
`1` for video categories, else the `threshold` parameter (default 2). -/
def fuzzyLocalThreshold (video : List String) (threshold : Nat) (r : Resource) : Nat :=
  if r.getCategory ∈ video then 1 else threshold

/-- Loop of `DedupEngine._dedup_by_levenshtein`, with the incrementally
built `reference_titles` list made explicit. -/
def dedupByLevenshteinAux (video : List String) (threshold : Nat) :
    List Resource → List String → List Resource × List Resource
  | [], _ => ([], [])
  | r :: rs, refs =>
    if refs.any (fun ref =>
        decide (levenshteinDistance (pyLower r.getName) (pyLower ref) ≤
          fuzzyLocalThreshold video threshold r)) then
      ((dedupByLevenshteinAux video threshold rs refs).1,
       r :: (dedupByLevenshteinAux video threshold rs refs).2)
    else
      (r :: (dedupByLevenshteinAux video threshold rs (refs ++ [r.getName])).1,
       (dedupByLevenshteinAux video threshold rs (refs ++ [r.getName])).2)

/-- `DedupEngine._dedup_by_levenshtein`. -/
def dedupByLevenshtein (video : List String) (threshold : Nat) (l : List Resource) :
    List Resource × List Resource :=
  dedupByLevenshteinAux video threshold l []

/-- The `f"{hostname}:{title}"` key of `_dedup_by_domain_and_title`. -/
def hostnameTitleKey (r : Resource) : String :=
  getHostname r.getUrl ++ ":" ++ pyLower r.getName

/-- Loop of `DedupEngine._dedup_by_domain_and_title`, with the
`seen_canonical_urls` and `seen_hostname_titles` sets made explicit. -/
def dedupByDomainAux : List Resource → List String → List String → List Resource × List Resource
  | [], _, _ => ([], [])
  | r :: rs, seenCanon, seenHost =>
    if getCanonicalUrl r.getUrl ∈ seenCanon ∨ hostnameTitleKey r ∈ seenHost then
      ((dedupByDomainAux rs seenCanon seenHost).1,
       r :: (dedupByDomainAux rs seenCanon seenHost).2)
    else
      (r :: (dedupByDomainAux rs (getCanonicalUrl r.getUrl :: seenCanon)
              (hostnameTitleKey r :: seenHost)).1,
       (dedupByDomainAux rs (getCanonicalUrl r.getUrl :: seenCanon)
              (hostnameTitleKey r :: seenHost)).2)

/-- `DedupEngine._dedup_by_domain_and_title`. -/
def dedupByDomainAndTitle (l : List Resource) : List Resource × List Resource :=
  dedupByDomainAux l [] []

/-- `DedupEngine._filter_original_urls`: raw-URL membership first, then
canonical-URL membership against the canonicalised original set.
Returns `(filtered, original)`. -/
def filterOriginalUrls (origs : List String) : List Resource → List Resource × List Resource
  | [] => ([], [])
  | r :: rs =>
    if r.getUrl ∈ origs then
      ((filterOriginalUrls origs rs).1, r :: (filterOriginalUrls origs rs).2)
    else if getCanonicalUrl r.getUrl ∈ origs.map getCanonicalUrl then
      ((filterOriginalUrls origs rs).1, r :: (filterOriginalUrls origs rs).2)
    else
      (r :: (filterOriginalUrls origs rs).1, (filterOriginalUrls origs rs).2)

/-- The embedding input `f"{title} {description}".strip()` of
`_dedup_by_semantic`. -/
def embedText (r : Resource) : String :=
  pyStrip (r.getName ++ " " ++ r.getDescription)

/-- The per-candidate similarity threshold of `_dedup_by_semantic`:
`0.88` when the candidate's own category is a video category, else the
`threshold` parameter (default `0.85`). -/
def semanticLocalThreshold (video : List String) (t : ℚ) (r : Resource) : ℚ :=
  if r.getCategory ∈ video then mkRat 88 100 else t

/-- The category gate of `_dedup_by_semantic`: categories equal, or the
candidate's category is video-related, or the accepted one's is. -/
def semGate (video : List String) (r u : Resource) : Prop :=
  r.getCategory = u.getCategory ∨ r.getCategory ∈ video ∨ u.getCategory ∈ video

instance (video : List String) (r u : Resource) : Decidable (semGate video r u) := by
  unfold semGate; infer_instance

/-- Loop of `DedupEngine._dedup_by_semantic`, with the incrementally
built accepted list made explicit; `sim` is the similarity oracle. -/
def dedupBySemanticAux (video : List String) (t : ℚ) (sim : String → String → ℚ) :
    List Resource → List Resource → List Resource × List Resource
  | [], _ => ([], [])
  | r :: rs, acc =>
    if acc.any (fun u =>
        decide (semanticLocalThreshold video t r ≤ sim (embedText r) (embedText u)) &&
        decide (semGate video r u)) then
      ((dedupBySemanticAux video t sim rs acc).1,
       r :: (dedupBySemanticAux video t sim rs acc).2)
    else
      (r :: (dedupBySemanticAux video t sim rs (acc ++ [r])).1,
       (dedupBySemanticAux video t sim rs (acc ++ [r])).2)

/-- `DedupEngine._dedup_by_semantic`. -/
def dedupBySemantic (video : List String) (t : ℚ) (sim : String → String → ℚ)
    (l : List Resource) : List Resource × List Resource :=
  dedupBySemanticAux video t sim l []

/-- The `dedup_stats` dictionary built by `deduplicate_resources`. -/
structure DedupStats where
  candidates : Nat
  case_filtered : Nat
  fuzzy_filtered : Nat
  domain_filtered : Nat
  semantic_filtered : Nat
  original_filtered : Nat
  final : Nat
deriving DecidableEq

/-- The duplicate ratio of `deduplicate_resources`, line 108:
`(candidates - final) / max(1, candidates)` (Python true division,
modelled in `ℚ`). -/
def duplicateRatioVal (s : DedupStats) : ℚ :=
  ((s.candidates : ℚ) - (s.final : ℚ)) / ((max 1 s.candidates : Nat) : ℚ)

/-- Constructor arguments of `DedupEngine` used by the pipeline, plus
the similarity oracle abstracting the sentence-transformer model. -/
structure Config where
  originalUrls : List String
  duplicateThreshold : ℚ
  videoCategories : List String
  sim : String → String → ℚ

/-- `DedupEngine.deduplicate_resources`: the empty-input early return,
the five sequential filtering stages, and the statistics record.
Returns the survivors together with the stats (`none` on the empty
early return, where the code builds no stats). -/
def deduplicateResourcesCore (cfg : Config) (candidates : List Resource) :
    List Resource × Option DedupStats :=
  if candidates.isEmpty then ([], none)
  else
    (( dedupBySemantic cfg.videoCategories (mkRat 85 100) cfg.sim
        (filterOriginalUrls cfg.originalUrls
          (dedupByDomainAndTitle
            (dedupByLevenshtein cfg.videoCategories 2
              (dedupByCase candidates).1).1).1).1).1,
     some {
       candidates := candidates.length
       case_filtered := (dedupByCase candidates).2.length
       fuzzy_filtered := (dedupByLevenshtein cfg.videoCategories 2
         (dedupByCase candidates).1).2.length
       domain_filtered := (dedupByDomainAndTitle
         (dedupByLevenshtein cfg.videoCategories 2
           (dedupByCase candidates).1).1).2.length
       semantic_filtered := (dedupBySemantic cfg.videoCategories (mkRat 85 100) cfg.sim
         (filterOriginalUrls cfg.originalUrls
           (dedupByDomainAndTitle
             (dedupByLevenshtein cfg.videoCategories 2
               (dedupByCase candidates).1).1).1).1).2.length
       original_filtered := (filterOriginalUrls cfg.originalUrls
         (dedupByDomainAndTitle
           (dedupByLevenshtein cfg.videoCategories 2
             (dedupByCase candidates).1).1).1).2.length
       final := (dedupBySemantic cfg.videoCategories (mkRat 85 100) cfg.sim
         (filterOriginalUrls cfg.originalUrls
           (dedupByDomainAndTitle
             (dedupByLevenshtein cfg.videoCategories 2
               (dedupByCase candidates).1).1).1).1).1.length })

/-- `deduplicate_resources` as seen by a caller: the body contains no
`raise` (the threshold breach only logs a warning, see the source
comment at line 117), so the result is always `Except.ok`. -/
def deduplicateResources (cfg : Config) (candidates : List Resource) :
    Except String (List Resource × Option DedupStats) :=
  Except.ok (deduplicateResourcesCore cfg candidates)

example : getCanonicalUrl "https://www.Example.com/Foo/" = "example.com/foo" := by decide
example : getCanonicalUrl "https://example.com/foo" = "example.com/foo" := by decide
example : levenshteinDistance "React" "Reactt" = 1 := by decide
example : levenshteinDistance "React" "Reacttwo" = 3 := by decide

/-! ### Spec-side definitions used by the refinement claims. -/

/-- Spec-side restatement of layer 1 for the refinement proof: a
candidate is a duplicate exactly when its lowercased name equals the
lowercased name of SOME EARLIER CANDIDATE IN INPUT ORDER (`prior` holds
the lowercased names of all earlier candidates, kept or not), whereas
the source keeps only the names of kept candidates in `seen_titles`. -/
def caseLayerSpec : List Resource → List String → List Resource × List Resource
  | [], _ => ([], [])
  | r :: rs, prior =>
    if pyLower r.getName ∈ prior then
      ((caseLayerSpec rs (prior ++ [pyLower r.getName])).1,
       r :: (caseLayerSpec rs (prior ++ [pyLower r.getName])).2)
    else
      (r :: (caseLayerSpec rs (prior ++ [pyLower r.getName])).1,
       (caseLayerSpec rs (prior ++ [pyLower r.getName])).2)

/-- A candidate whose `name` field is missing or empty: `resource.get`
returns `""` for both. -/
def hasEmptyName (r : Resource) : Bool := r.getName == ""

/-- Spec-side measure for the refinement proof: the minimum Levenshtein
distance between the candidate's lowercased name and the lowercased
names already accepted in this layer (`⊤` when none accepted yet). -/
def minDistanceToRefs (title : String) (refs : List String) : ℕ∞ :=
  List.foldr min ⊤
    (refs.map fun ref => ((levenshteinDistance (pyLower title) (pyLower ref) : Nat) : ℕ∞))

/-- Spec-side predicate for the refinement proof: the candidate's URL
matches the known-URL set by raw membership or by canonical-URL
membership. -/
def matchesKnown (origs : List String) (r : Resource) : Bool :=
  decide (r.getUrl ∈ origs) || decide (getCanonicalUrl r.getUrl ∈ origs.map getCanonicalUrl)

/-- Duplicate predicate worded exactly as the claim states it, for the
refinement comparison: similarity at least the bar, where the relaxed
bar `0.88` replaces `0.85` whenever EITHER candidate's category is in
the cross-category-sensitive set, conjoined with the category gate. -/
def claimSemanticDup (video : List String) (sim : String → String → ℚ)
    (r u : Resource) : Prop :=
  (if r.getCategory ∈ video ∨ u.getCategory ∈ video then mkRat 88 100 else mkRat 85 100) ≤
      sim (embedText r) (embedText u) ∧
  (r.getCategory = u.getCategory ∨ r.getCategory ∈ video ∨ u.getCategory ∈ video)

instance (video : List String) (sim : String → String → ℚ) (r u : Resource) :
    Decidable (claimSemanticDup video sim r u) := by
  unfold claimSemanticDup; infer_instance

/-! ### Partition lemmas: every stage splits its input into the two
returned lists, so lengths add up. -/

theorem dedupByCaseAux_partition (l : List Resource) :
    ∀ seen, (dedupByCaseAux l seen).1.length + (dedupByCaseAux l seen).2.length = l.length := by
  induction l with
  | nil => intro seen; simp [dedupByCaseAux]
  | cons r rs ih =>
    intro seen
    simp only [dedupByCaseAux]
    split
    · have := ih seen; simp; omega
    · have := ih (pyLower r.getName :: seen); simp; omega

theorem dedupByLevenshteinAux_partition (video : List String) (t : Nat) (l : List Resource) :
    ∀ refs, (dedupByLevenshteinAux video t l refs).1.length +
      (dedupByLevenshteinAux video t l refs).2.length = l.length := by
  induction l with
  | nil => intro refs; simp [dedupByLevenshteinAux]
  | cons r rs ih =>
    intro refs
    simp only [dedupByLevenshteinAux]
    split
    · have := ih refs; simp; omega
    · have := ih (refs ++ [r.getName]); simp; omega

theorem dedupByDomainAux_partition (l : List Resource) :
    ∀ seenCanon seenHost, (dedupByDomainAux l seenCanon seenHost).1.length +
      (dedupByDomainAux l seenCanon seenHost).2.length = l.length := by
  induction l with
  | nil => intro a b; simp [dedupByDomainAux]
  | cons r rs ih =>
    intro a b
    simp only [dedupByDomainAux]
    split
    · have := ih a b; simp; omega
    · have := ih (getCanonicalUrl r.getUrl :: a) (hostnameTitleKey r :: b); simp; omega

theorem filterOriginalUrls_partition (origs : List String) (l : List Resource) :
    (filterOriginalUrls origs l).1.length + (filterOriginalUrls origs l).2.length = l.length := by
  induction l with
  | nil => simp [filterOriginalUrls]
  | cons r rs ih =>
    simp only [filterOriginalUrls]
    split
    · simp; omega
    · split
      · simp; omega
      · simp; omega

theorem dedupBySemanticAux_partition (video : List String) (t : ℚ) (sim : String → String → ℚ)
    (l : List Resource) :
    ∀ acc, (dedupBySemanticAux video t sim l acc).1.length +
      (dedupBySemanticAux video t sim l acc).2.length = l.length := by
  induction l with
  | nil => intro acc; simp [dedupBySemanticAux]
  | cons r rs ih =>
    intro acc
    simp only [dedupBySemanticAux]
    split
    · have := ih acc; simp; omega
    · have := ih (acc ++ [r]); simp; omega

/-- C6: each of the five pipeline stages returns a survivor list no
longer than its input, and the final pipeline output is no longer than
the candidate list. -/
theorem pipeline_monotone_narrowing (cfg : Config) (l : List Resource) :
    (dedupBySemantic cfg.videoCategories (mkRat 85 100) cfg.sim
        (filterOriginalUrls cfg.originalUrls
          (dedupByDomainAndTitle
            (dedupByLevenshtein cfg.videoCategories 2
              (dedupByCase l).1).1).1).1).1.length ≤
      (filterOriginalUrls cfg.originalUrls
          (dedupByDomainAndTitle
            (dedupByLevenshtein cfg.videoCategories 2
              (dedupByCase l).1).1).1).1.length ∧
    (filterOriginalUrls cfg.originalUrls
          (dedupByDomainAndTitle
            (dedupByLevenshtein cfg.videoCategories 2
              (dedupByCase l).1).1).1).1.length ≤
      (dedupByDomainAndTitle
            (dedupByLevenshtein cfg.videoCategories 2
              (dedupByCase l).1).1).1.length ∧
    (dedupByDomainAndTitle
            (dedupByLevenshtein cfg.videoCategories 2
              (dedupByCase l).1).1).1.length ≤
      (dedupByLevenshtein cfg.videoCategories 2 (dedupByCase l).1).1.length ∧
    (dedupByLevenshtein cfg.videoCategories 2 (dedupByCase l).1).1.length ≤
      (dedupByCase l).1.length ∧
    (dedupByCase l).1.length ≤ l.length ∧
    (deduplicateResourcesCore cfg l).1.length ≤ l.length := by
  have h1 := dedupByCaseAux_partition l []
  have h2 := dedupByLevenshteinAux_partition cfg.videoCategories 2 (dedupByCase l).1 []
  have h3 := dedupByDomainAux_partition
    (dedupByLevenshtein cfg.videoCategories 2 (dedupByCase l).1).1 [] []
  have h4 := filterOriginalUrls_partition cfg.originalUrls
    (dedupByDomainAndTitle
      (dedupByLevenshtein cfg.videoCategories 2 (dedupByCase l).1).1).1
  have h5 := dedupBySemanticAux_partition cfg.videoCategories (mkRat 85 100) cfg.sim
    (filterOriginalUrls cfg.originalUrls
      (dedupByDomainAndTitle
        (dedupByLevenshtein cfg.videoCategories 2 (dedupByCase l).1).1).1).1 []
  simp only [dedupByCase, dedupByLevenshtein, dedupByDomainAndTitle, dedupBySemantic] at *
  refine ⟨by omega, by omega, by omega, by omega, by omega, ?_⟩
  by_cases hl : l.isEmpty
  · simp [deduplicateResourcesCore, hl]
  · simp only [deduplicateResourcesCore, hl, if_neg, Bool.false_eq_true, not_false_iff,
      dedupByCase, dedupByLevenshtein, dedupByDomainAndTitle, dedupBySemantic]
    omega

/-! ### Layer 1: case-insensitive dedup (claims C4 and C10). -/

theorem dedupByCaseAux_eq_spec (l : List Resource) :
    ∀ seen prior, (∀ x, x ∈ seen ↔ x ∈ prior) →
      dedupByCaseAux l seen = caseLayerSpec l prior := by
  induction l with
  | nil => intro seen prior _; simp [dedupByCaseAux, caseLayerSpec]
  | cons r rs ih =>
    intro seen prior hmem
    by_cases h : pyLower r.getName ∈ prior
    · have hseen : pyLower r.getName ∈ seen := (hmem _).mpr h
      have hrec : dedupByCaseAux rs seen = caseLayerSpec rs (prior ++ [pyLower r.getName]) := by
        refine ih seen _ fun x => ?_
        rw [hmem x]
        simp only [List.mem_append, List.mem_singleton]
        constructor
        · exact fun hx => Or.inl hx
        · rintro (hx | rfl) <;> [exact hx; exact h]
      simp [dedupByCaseAux, caseLayerSpec, h, hseen, hrec]
    · have hseen : pyLower r.getName ∉ seen := fun hx => h ((hmem _).mp hx)
      have hrec : dedupByCaseAux rs (pyLower r.getName :: seen) =
          caseLayerSpec rs (prior ++ [pyLower r.getName]) := by
        refine ih _ _ fun x => ?_
        simp only [List.mem_cons, List.mem_append, List.mem_singleton, hmem x]
        tauto
      simp [dedupByCaseAux, caseLayerSpec, h, hseen, hrec]

theorem dedupByCaseAux_sublist (l : List Resource) :
    ∀ seen, List.Sublist (dedupByCaseAux l seen).1 l := by
  induction l with
  | nil => intro seen; simp [dedupByCaseAux]
  | cons r rs ih =>
    intro seen
    simp only [dedupByCaseAux]
    split
    · exact List.Sublist.cons r (ih seen)
    · exact List.Sublist.cons₂ r (ih (pyLower r.getName :: seen))

/-- C4: layer 1 keeps exactly the candidates whose lowercased name has
not occurred among the earlier candidates of the input (first
occurrence wins), drops exactly the others, and the survivors appear in
their original input order (they form a sublist of the input). -/
theorem case_layer_first_occurrence (l : List Resource) :
    dedupByCase l = caseLayerSpec l [] ∧ List.Sublist (dedupByCase l).1 l := by
  constructor
  · exact dedupByCaseAux_eq_spec l [] [] (by simp)
  · exact dedupByCaseAux_sublist l []

theorem pyLower_eq_empty_iff (s : String) : pyLower s = "" ↔ s = "" := by
  rw [String.ext_iff, String.ext_iff]
  simp [pyLower]

theorem caseAux_countP_of_empty_seen (l : List Resource) :
    ∀ seen, "" ∈ seen →
      (dedupByCaseAux l seen).1.countP hasEmptyName = 0 ∧
      (dedupByCaseAux l seen).2.countP hasEmptyName = l.countP hasEmptyName := by
  induction l with
  | nil => intro seen _; simp [dedupByCaseAux]
  | cons r rs ih =>
    intro seen h
    by_cases hP : r.getName = ""
    · have hkey : pyLower r.getName = "" := by rw [hP]; rfl
      have hmem : pyLower r.getName ∈ seen := by rw [hkey]; exact h
      have hrec := ih seen h
      have hPb : hasEmptyName r = true := by simp [hasEmptyName, hP]
      rw [dedupByCaseAux, if_pos hmem]
      refine ⟨hrec.1, ?_⟩
      simp [List.countP_cons, hPb, hrec.2]
    · have hPb : hasEmptyName r = false := by simp [hasEmptyName, hP]
      by_cases hmem : pyLower r.getName ∈ seen
      · have hrec := ih seen h
        rw [dedupByCaseAux, if_pos hmem]
        refine ⟨hrec.1, ?_⟩
        simp [List.countP_cons, hPb, hrec.2]
      · have hrec := ih (pyLower r.getName :: seen) (List.mem_cons_of_mem _ h)
        rw [dedupByCaseAux, if_neg hmem]
        refine ⟨?_, ?_⟩
        · simp [List.countP_cons, hPb, hrec.1]
        · simp [List.countP_cons, hPb, hrec.2]

theorem caseAux_first_empty_name (l : List Resource) :
    ∀ seen, "" ∉ seen → 1 ≤ l.countP hasEmptyName →
      (dedupByCaseAux l seen).1.countP hasEmptyName = 1 ∧
      (dedupByCaseAux l seen).2.countP hasEmptyName = l.countP hasEmptyName - 1 ∧
      (dedupByCaseAux l seen).1.find? hasEmptyName = l.find? hasEmptyName := by
  induction l with
  | nil => intro seen _ hc; simp at hc
  | cons r rs ih =>
    intro seen hs hc
    by_cases hP : r.getName = ""
    · have hkey : pyLower r.getName = "" := by rw [hP]; rfl
      have hmem : pyLower r.getName ∉ seen := by rw [hkey]; exact hs
      have hin : "" ∈ pyLower r.getName :: seen := by rw [hkey]; exact List.mem_cons_self _ _
      have hA := caseAux_countP_of_empty_seen rs (pyLower r.getName :: seen) hin
      have hPb : hasEmptyName r = true := by simp [hasEmptyName, hP]
      rw [dedupByCaseAux, if_neg hmem]
      refine ⟨?_, ?_, ?_⟩
      · simp [List.countP_cons, hPb, hA.1]
      · simp [List.countP_cons, hPb, hA.2]
      · rw [List.find?_cons_of_pos _ hPb, List.find?_cons_of_pos _ hPb]
    · have hkey : pyLower r.getName ≠ "" := fun hx => hP ((pyLower_eq_empty_iff _).mp hx)
      have hPb : hasEmptyName r = false := by simp [hasEmptyName, hP]
      have hPn : ¬ hasEmptyName r = true := by simp [hPb]
      have hcount : 1 ≤ rs.countP hasEmptyName := by
        simpa [List.countP_cons, hPb] using hc
      by_cases hmem : pyLower r.getName ∈ seen
      · have hrec := ih seen hs hcount
        rw [dedupByCaseAux, if_pos hmem]
        refine ⟨hrec.1, ?_, ?_⟩
        · simp [List.countP_cons, hPb, hrec.2.1]
        · rw [List.find?_cons_of_neg _ hPn, hrec.2.2]
      · have hs2 : "" ∉ pyLower r.getName :: seen := by
          intro hx
          rcases List.mem_cons.mp hx with hx | hx
          · exact hkey hx.symm
          · exact hs hx
        have hrec := ih _ hs2 hcount
        rw [dedupByCaseAux, if_neg hmem]
        refine ⟨?_, ?_, ?_⟩
        · simp [List.countP_cons, hPb, hrec.1]
        · simp [List.countP_cons, hPb, hrec.2.1]
        · rw [List.find?_cons_of_neg _ hPn, List.find?_cons_of_neg _ hPn, hrec.2.2]

/-- C10: when at least two candidates have a missing or empty name,
layer 1 keeps exactly one candidate with an empty name (the first such
candidate of the input) and removes every other one. -/
theorem empty_names_collapse (l : List Resource)
    (h : 2 ≤ l.countP hasEmptyName) :
    (dedupByCase l).1.countP hasEmptyName = 1 ∧
    (dedupByCase l).2.countP hasEmptyName = l.countP hasEmptyName - 1 ∧
    (dedupByCase l).1.find? hasEmptyName = l.find? hasEmptyName := by
  exact caseAux_first_empty_name l [] (by simp) (by omega)

/-- Concrete instance of `empty_names_collapse`: two candidates with a
missing resp. empty name collapse to the first one. -/
theorem empty_names_collapse_witness :
    2 ≤ (([⟨none, some "u1", none, none⟩, ⟨some "", some "u2", none, none⟩] :
        List Resource).countP hasEmptyName) ∧
    ((dedupByCase [⟨none, some "u1", none, none⟩, ⟨some "", some "u2", none, none⟩]).1.countP
        hasEmptyName = 1 ∧
      (dedupByCase [⟨none, some "u1", none, none⟩, ⟨some "", some "u2", none, none⟩]).2.countP
        hasEmptyName =
        (([⟨none, some "u1", none, none⟩, ⟨some "", some "u2", none, none⟩] :
          List Resource).countP hasEmptyName) - 1 ∧
      (dedupByCase [⟨none, some "u1", none, none⟩, ⟨some "", some "u2", none, none⟩]).1.find?
        hasEmptyName =
        ([⟨none, some "u1", none, none⟩, ⟨some "", some "u2", none, none⟩] :
          List Resource).find? hasEmptyName) :=
  ⟨by decide, empty_names_collapse _ (by decide)⟩

/-! ### Layer 2: fuzzy Levenshtein dedup (claim C2). -/

theorem any_close_iff_minDistance_le (title : String) (t : Nat) (refs : List String) :
    (refs.any fun ref =>
        decide (levenshteinDistance (pyLower title) (pyLower ref) ≤ t)) = true ↔
      minDistanceToRefs title refs ≤ (t : ℕ∞) := by
  induction refs with
  | nil =>
    simp [minDistanceToRefs]
  | cons ref refs ih =>
    simp only [List.any_cons, Bool.or_eq_true, decide_eq_true_eq, ih,
      minDistanceToRefs, List.map_cons, List.foldr_cons, min_le_iff]
    constructor
    · rintro (h | h)
      · exact Or.inl (by exact_mod_cast h)
      · exact Or.inr h
    · rintro (h | h)
      · exact Or.inl (by exact_mod_cast h)
      · exact Or.inr h

/-- C2: in the fuzzy layer, a candidate is removed exactly when the
minimum Levenshtein distance between its lowercased name and the
lowercased names accepted so far in this layer is at most the local
threshold, which is `1` when its category is in the strict (video)
category set and the default `2` otherwise; with a larger minimum
distance (threshold + 1 or more) it is kept and its name joins the
reference list. -/
theorem fuzzy_min_distance_threshold (video : List String) (r : Resource)
    (rs : List Resource) (refs : List String) :
    fuzzyLocalThreshold video 2 r = (if r.getCategory ∈ video then 1 else 2) ∧
    dedupByLevenshteinAux video 2 (r :: rs) refs =
      (if minDistanceToRefs r.getName refs ≤ (fuzzyLocalThreshold video 2 r : ℕ∞) then
        ((dedupByLevenshteinAux video 2 rs refs).1,
         r :: (dedupByLevenshteinAux video 2 rs refs).2)
      else
        (r :: (dedupByLevenshteinAux video 2 rs (refs ++ [r.getName])).1,
         (dedupByLevenshteinAux video 2 rs (refs ++ [r.getName])).2)) := by
  refine ⟨rfl, ?_⟩
  by_cases h : minDistanceToRefs r.getName refs ≤ (fuzzyLocalThreshold video 2 r : ℕ∞)
  · have hb := (any_close_iff_minDistance_le r.getName (fuzzyLocalThreshold video 2 r) refs).mpr h
    rw [dedupByLevenshteinAux, if_pos hb, if_pos h]
  · have hb : ¬ (refs.any fun ref =>
        decide (levenshteinDistance (pyLower r.getName) (pyLower ref) ≤
          fuzzyLocalThreshold video 2 r)) = true := fun hx =>
      h ((any_close_iff_minDistance_le r.getName (fuzzyLocalThreshold video 2 r) refs).mp hx)
    rw [dedupByLevenshteinAux, if_neg hb, if_neg h]

/-! ### Layer 3 and the original-URL filter (claims C3, C5). -/

/-- C3: the two spec URLs canonicalise to the same string, and in
layer 3 a candidate whose canonical URL is already in the seen set of
earlier-accepted candidates is put into the duplicates list. -/
theorem canonical_url_dedup :
    (getCanonicalUrl "https://www.Example.com/Foo/" = "example.com/foo" ∧
     getCanonicalUrl "https://example.com/foo" = "example.com/foo") ∧
    ∀ (r : Resource) (rs : List Resource) (seenCanon seenHost : List String),
      getCanonicalUrl r.getUrl ∈ seenCanon →
        dedupByDomainAux (r :: rs) seenCanon seenHost =
          ((dedupByDomainAux rs seenCanon seenHost).1,
           r :: (dedupByDomainAux rs seenCanon seenHost).2) := by
  refine ⟨⟨by decide, by decide⟩, fun r rs a b h => ?_⟩
  rw [dedupByDomainAux, if_pos (Or.inl h)]

/-- Concrete instance of `canonical_url_dedup`: a candidate whose URL
canonicalises to an already-seen canonical URL is removed. -/
theorem canonical_url_dedup_witness :
    getCanonicalUrl (Resource.getUrl ⟨some "B", some "https://www.Example.com/Foo/", none, none⟩) ∈
      ["example.com/foo"] ∧
    dedupByDomainAux [⟨some "B", some "https://www.Example.com/Foo/", none, none⟩]
      ["example.com/foo"] [] =
      (([] : List Resource), [⟨some "B", some "https://www.Example.com/Foo/", none, none⟩]) := by
  refine ⟨by decide, ?_⟩
  rw [canonical_url_dedup.2 ⟨some "B", some "https://www.Example.com/Foo/", none, none⟩ []
    ["example.com/foo"] [] (by decide)]
  rfl

theorem filterOriginalUrls_eq_filter (origs : List String) (m : List Resource) :
    filterOriginalUrls origs m =
      (m.filter fun r => ! matchesKnown origs r, m.filter fun r => matchesKnown origs r) := by
  induction m with
  | nil => simp [filterOriginalUrls]
  | cons r rs ih =>
    by_cases h1 : r.getUrl ∈ origs
    · have hm : matchesKnown origs r = true := by
        simp only [matchesKnown, Bool.or_eq_true, decide_eq_true_eq]
        exact Or.inl h1
      simp only [filterOriginalUrls, if_pos h1, ih, List.filter_cons, hm]
      simp
    · by_cases h2 : getCanonicalUrl r.getUrl ∈ origs.map getCanonicalUrl
      · have hm : matchesKnown origs r = true := by
          simp only [matchesKnown, Bool.or_eq_true, decide_eq_true_eq]
          exact Or.inr h2
        simp only [filterOriginalUrls, if_neg h1, if_pos h2, ih, List.filter_cons, hm]
        simp
      · have hm : matchesKnown origs r = false := by
          simp only [matchesKnown, Bool.or_eq_false_iff, decide_eq_false_iff_not]
          exact ⟨h1, h2⟩
        simp only [filterOriginalUrls, if_neg h1, if_neg h2, ih, List.filter_cons, hm]
        simp

/-- C5: the original-URL filter removes exactly the candidates that
match the known set (raw or canonical URL) and passes the others
through unchanged, and in the pipeline the removed ones are counted in
`original_filtered` while `domain_filtered` counts exactly the layer-3
duplicates. -/
theorem original_filter_separate_stat (cfg : Config) (l res : List Resource)
    (s : DedupStats) (origs : List String) (m : List Resource)
    (h : deduplicateResourcesCore cfg l = (res, some s)) :
    filterOriginalUrls origs m =
      (m.filter fun r => ! matchesKnown origs r, m.filter fun r => matchesKnown origs r) ∧
    s.original_filtered =
      ((dedupByDomainAndTitle
          (dedupByLevenshtein cfg.videoCategories 2
            (dedupByCase l).1).1).1.filter fun r => matchesKnown cfg.originalUrls r).length ∧
    s.domain_filtered =
      (dedupByDomainAndTitle
        (dedupByLevenshtein cfg.videoCategories 2 (dedupByCase l).1).1).2.length := by
  refine ⟨filterOriginalUrls_eq_filter origs m, ?_, ?_⟩ <;>
  · by_cases hl : l.isEmpty
    · rw [deduplicateResourcesCore, if_pos hl] at h
      simp at h
    · rw [deduplicateResourcesCore, if_neg hl] at h
      injection h with hres hstats
      injection hstats with hs
      subst hs
      simp [filterOriginalUrls_eq_filter]

/-- Concrete instance of `original_filter_separate_stat`: one candidate
matching a known URL is removed by the original filter and counted in
`original_filtered`, not `domain_filtered`. -/
theorem original_filter_separate_stat_witness :
    deduplicateResourcesCore ⟨["u"], 3 / 10, [], fun _ _ => 0⟩
        [⟨some "aaaa", some "u", none, none⟩, ⟨some "bbbb", some "v", none, none⟩] =
      ([⟨some "bbbb", some "v", none, none⟩],
        some ⟨2, 0, 0, 0, 0, 1, 1⟩) ∧
    (filterOriginalUrls ["u"]
        [⟨some "aaaa", some "u", none, none⟩, ⟨some "bbbb", some "v", none, none⟩] =
      ([⟨some "bbbb", some "v", none, none⟩], [⟨some "aaaa", some "u", none, none⟩]) ∧
     (1 : Nat) =
      ((dedupByDomainAndTitle
          (dedupByLevenshtein ([] : List String) 2
            (dedupByCase [⟨some "aaaa", some "u", none, none⟩,
              ⟨some "bbbb", some "v", none, none⟩]).1).1).1.filter fun r =>
                matchesKnown ["u"] r).length ∧
     (0 : Nat) =
      (dedupByDomainAndTitle
        (dedupByLevenshtein ([] : List String) 2
          (dedupByCase [⟨some "aaaa", some "u", none, none⟩,
            ⟨some "bbbb", some "v", none, none⟩]).1).1).2.length) := by
  have hcore : deduplicateResourcesCore ⟨["u"], 3 / 10, [], fun _ _ => 0⟩
      [⟨some "aaaa", some "u", none, none⟩, ⟨some "bbbb", some "v", none, none⟩] =
      ([⟨some "bbbb", some "v", none, none⟩], some ⟨2, 0, 0, 0, 0, 1, 1⟩) := by decide
  refine ⟨hcore, ?_⟩
  have h := original_filter_separate_stat ⟨["u"], 3 / 10, [], fun _ _ => 0⟩
    [⟨some "aaaa", some "u", none, none⟩, ⟨some "bbbb", some "v", none, none⟩]
    [⟨some "bbbb", some "v", none, none⟩] ⟨2, 0, 0, 0, 0, 1, 1⟩ ["u"]
    [⟨some "aaaa", some "u", none, none⟩, ⟨some "bbbb", some "v", none, none⟩] hcore
  exact h

/-- C9: for a non-empty input the six statistics counters partition the
input: the five per-layer removal counts plus the survivor count equal
the candidate count, which is the input length. -/
theorem stats_partition (cfg : Config) (l res : List Resource) (s : DedupStats)
    (h : deduplicateResourcesCore cfg l = (res, some s)) :
    s.case_filtered + s.fuzzy_filtered + s.domain_filtered + s.original_filtered +
      s.semantic_filtered + s.final = s.candidates ∧
    s.candidates = l.length := by
  by_cases hl : l.isEmpty
  · rw [deduplicateResourcesCore, if_pos hl] at h
    simp at h
  · rw [deduplicateResourcesCore, if_neg hl] at h
    injection h with hres hstats
    injection hstats with hs
    subst hs
    have h1 := dedupByCaseAux_partition l []
    have h2 := dedupByLevenshteinAux_partition cfg.videoCategories 2 (dedupByCase l).1 []
    have h3 := dedupByDomainAux_partition
      (dedupByLevenshtein cfg.videoCategories 2 (dedupByCase l).1).1 [] []
    have h4 := filterOriginalUrls_partition cfg.originalUrls
      (dedupByDomainAndTitle
        (dedupByLevenshtein cfg.videoCategories 2 (dedupByCase l).1).1).1
    have h5 := dedupBySemanticAux_partition cfg.videoCategories (mkRat 85 100) cfg.sim
      (filterOriginalUrls cfg.originalUrls
        (dedupByDomainAndTitle
          (dedupByLevenshtein cfg.videoCategories 2 (dedupByCase l).1).1).1).1 []
    simp only [dedupByCase, dedupByLevenshtein, dedupByDomainAndTitle, dedupBySemantic] at *
    constructor
    · omega
    · trivial

/-- Concrete instance of `stats_partition`. -/
theorem stats_partition_witness :
    deduplicateResourcesCore ⟨[], 3 / 10, [], fun _ _ => 0⟩
        [⟨some "abc", some "u", none, none⟩, ⟨some "ABC", some "v", none, none⟩] =
      ([⟨some "abc", some "u", none, none⟩], some ⟨2, 1, 0, 0, 0, 0, 1⟩) ∧
    ((1 : Nat) + 0 + 0 + 0 + 0 + 1 = 2 ∧ (2 : Nat) = 2) := by
  have hcore : deduplicateResourcesCore ⟨[], 3 / 10, [], fun _ _ => 0⟩
      [⟨some "abc", some "u", none, none⟩, ⟨some "ABC", some "v", none, none⟩] =
      ([⟨some "abc", some "u", none, none⟩], some ⟨2, 1, 0, 0, 0, 0, 1⟩) := by decide
  exact ⟨hcore, stats_partition ⟨[], 3 / 10, [], fun _ _ => 0⟩
    [⟨some "abc", some "u", none, none⟩, ⟨some "ABC", some "v", none, none⟩]
    [⟨some "abc", some "u", none, none⟩] ⟨2, 1, 0, 0, 0, 0, 1⟩ hcore⟩

/-! ### Duplicate ratio and quality gate (claims C7, C8). -/

/-- C7, counterexample to the empty-list clause: on an empty candidate
list `deduplicate_resources` returns at line 66 before the stats
dictionary exists, so no `duplicate_ratio` (of `0.0` or otherwise) is
ever produced for the empty input. -/
theorem empty_input_reports_no_stats :
    ¬ ∃ s : DedupStats,
        (deduplicateResourcesCore ⟨[], 3 / 10, [], fun _ _ => 0⟩ []).2 = some s ∧
          duplicateRatioVal s = 0 := by
  rintro ⟨s, hs, _⟩
  rw [deduplicateResourcesCore] at hs
  simp at hs

/-- C7 as amended: for every non-empty input the ratio equals
`(candidates - final) / candidates` exactly (e.g. `7/10` for 10
candidates and 3 survivors); on the empty input the engine returns
early with no statistics, and the formula's `max 1` guard evaluates to
`0` at zero candidates, so no division by zero can occur. -/
theorem duplicate_ratio_formula (cfg : Config) (l res : List Resource) (s : DedupStats)
    (h : deduplicateResourcesCore cfg l = (res, some s)) :
    0 < s.candidates ∧
    duplicateRatioVal s = ((s.candidates : ℚ) - (s.final : ℚ)) / (s.candidates : ℚ) ∧
    deduplicateResourcesCore cfg [] = ([], none) ∧
    duplicateRatioVal ⟨10, 0, 0, 0, 0, 0, 3⟩ = 7 / 10 ∧
    duplicateRatioVal ⟨0, 0, 0, 0, 0, 0, 0⟩ = 0 := by
  by_cases hl : l.isEmpty
  · rw [deduplicateResourcesCore, if_pos hl] at h
    simp at h
  · rw [deduplicateResourcesCore, if_neg hl] at h
    injection h with hres hstats
    injection hstats with hs
    subst hs
    have hpos : 0 < l.length := by
      cases l
      · simp at hl
      · simp
    refine ⟨hpos, ?_, by rw [deduplicateResourcesCore]; rfl, by norm_num [duplicateRatioVal], by
      norm_num [duplicateRatioVal]⟩
    show ((l.length : ℚ) - _) / ((max 1 l.length : Nat) : ℚ) = _
    rw [max_eq_right hpos]

/-- Concrete instance of `duplicate_ratio_formula`: two candidates, one
survivor, ratio `1/2`. -/
theorem duplicate_ratio_formula_witness :
    deduplicateResourcesCore ⟨[], 3 / 10, [], fun _ _ => 0⟩
        [⟨some "a", some "u", none, none⟩, ⟨some "a", some "v", none, none⟩] =
      ([⟨some "a", some "u", none, none⟩], some ⟨2, 1, 0, 0, 0, 0, 1⟩) ∧
    (0 < (2 : Nat) ∧
      duplicateRatioVal ⟨2, 1, 0, 0, 0, 0, 1⟩ = (((2 : Nat) : ℚ) - ((1 : Nat) : ℚ)) / ((2 : Nat) : ℚ) ∧
      deduplicateResourcesCore ⟨[], 3 / 10, [], fun _ _ => 0⟩ [] = ([], none) ∧
      duplicateRatioVal ⟨10, 0, 0, 0, 0, 0, 3⟩ = 7 / 10 ∧
      duplicateRatioVal ⟨0, 0, 0, 0, 0, 0, 0⟩ = 0) := by
  have hcore : deduplicateResourcesCore ⟨[], 3 / 10, [], fun _ _ => 0⟩
      [⟨some "a", some "u", none, none⟩, ⟨some "a", some "v", none, none⟩] =
      ([⟨some "a", some "u", none, none⟩], some ⟨2, 1, 0, 0, 0, 0, 1⟩) := by decide
  exact ⟨hcore, duplicate_ratio_formula ⟨[], 3 / 10, [], fun _ _ => 0⟩
    [⟨some "a", some "u", none, none⟩, ⟨some "a", some "v", none, none⟩]
    [⟨some "a", some "u", none, none⟩] ⟨2, 1, 0, 0, 0, 0, 1⟩ hcore⟩

/-- C8: when the duplicate ratio exceeds the configured threshold the
run still completes normally: the caller receives `Except.ok` with the
full survivor list and the statistics, and the survivor list and stats
do not depend on the threshold at all (the breach is advisory). -/
theorem ratio_breach_advisory (cfg : Config) (l res : List Resource) (s : DedupStats)
    (h : deduplicateResourcesCore cfg l = (res, some s))
    (hbreach : cfg.duplicateThreshold < duplicateRatioVal s) :
    deduplicateResources cfg l = Except.ok (res, some s) ∧
    res.length = s.final ∧
    ∀ t : ℚ, deduplicateResourcesCore ⟨cfg.originalUrls, t, cfg.videoCategories, cfg.sim⟩ l =
      (res, some s) := by
  refine ⟨by rw [deduplicateResources, h], ?_, ?_⟩
  · by_cases hl : l.isEmpty
    · rw [deduplicateResourcesCore, if_pos hl] at h
      simp at h
    · rw [deduplicateResourcesCore, if_neg hl] at h
      injection h with hres hstats
      injection hstats with hs
      subst hs
      rw [← hres]
  · intro t
    obtain ⟨o, th, v, sm⟩ := cfg
    rw [← h]
    rfl

/-- Concrete instance of `ratio_breach_advisory`: ratio `1/2` exceeds
the default threshold `3/10`, the run returns `ok` and the output is
unchanged under a different threshold. -/
theorem ratio_breach_advisory_witness :
    deduplicateResourcesCore ⟨[], 3 / 10, [], fun _ _ => 0⟩
        [⟨some "a", some "u", none, none⟩, ⟨some "a", some "v", none, none⟩] =
      ([⟨some "a", some "u", none, none⟩], some ⟨2, 1, 0, 0, 0, 0, 1⟩) ∧
    (3 : ℚ) / 10 < duplicateRatioVal ⟨2, 1, 0, 0, 0, 0, 1⟩ ∧
    deduplicateResources ⟨[], 3 / 10, [], fun _ _ => 0⟩
        [⟨some "a", some "u", none, none⟩, ⟨some "a", some "v", none, none⟩] =
      Except.ok ([⟨some "a", some "u", none, none⟩], some ⟨2, 1, 0, 0, 0, 0, 1⟩) ∧
    ([⟨some "a", some "u", none, none⟩] : List Resource).length =
      (⟨2, 1, 0, 0, 0, 0, 1⟩ : DedupStats).final ∧
    deduplicateResourcesCore ⟨[], 9 / 10, [], fun _ _ => 0⟩
        [⟨some "a", some "u", none, none⟩, ⟨some "a", some "v", none, none⟩] =
      ([⟨some "a", some "u", none, none⟩], some ⟨2, 1, 0, 0, 0, 0, 1⟩) := by
  have hcore : deduplicateResourcesCore ⟨[], 3 / 10, [], fun _ _ => 0⟩
      [⟨some "a", some "u", none, none⟩, ⟨some "a", some "v", none, none⟩] =
      ([⟨some "a", some "u", none, none⟩], some ⟨2, 1, 0, 0, 0, 0, 1⟩) := by decide
  have hb : (⟨[], 3 / 10, [], fun _ _ => 0⟩ : Config).duplicateThreshold <
      duplicateRatioVal ⟨2, 1, 0, 0, 0, 0, 1⟩ := by
    norm_num [duplicateRatioVal]
  have H := ratio_breach_advisory ⟨[], 3 / 10, [], fun _ _ => 0⟩
    [⟨some "a", some "u", none, none⟩, ⟨some "a", some "v", none, none⟩]
    [⟨some "a", some "u", none, none⟩] ⟨2, 1, 0, 0, 0, 0, 1⟩ hcore hb
  exact ⟨hcore, hb, H.1, H.2.1, H.2.2 (9 / 10)⟩

/-! ### Layer 4: semantic dedup (claim C1). -/

/-- C1 counterexample: category "talk" vs an accepted "video" candidate
at similarity `0.86`.  The source uses the candidate's OWN category to
pick the bar, so the pair is merged at the `0.85` bar even though a
cross-category-sensitive category is involved; the claim's `0.88` bar
says the pair must NOT be merged, so the claimed "if and only if" fails
on this input. -/
theorem semantic_threshold_claim_counterexample :
    dedupBySemanticAux ["video"] (mkRat 85 100) (fun _ _ => mkRat 86 100)
        [⟨some "A", some "u1", some "", some "video"⟩,
         ⟨some "B", some "u2", some "", some "talk"⟩] [] =
      ([⟨some "A", some "u1", some "", some "video"⟩],
       [⟨some "B", some "u2", some "", some "talk"⟩]) ∧
    ¬ claimSemanticDup ["video"] (fun _ _ => mkRat 86 100)
        ⟨some "B", some "u2", some "", some "talk"⟩
        ⟨some "A", some "u1", some "", some "video"⟩ := by
  exact ⟨by decide, by decide⟩

/-- C1 as amended: a candidate is marked duplicate exactly when some
previously accepted candidate has similarity at least the local bar and
passes the category gate, where the relaxed `0.88` bar applies exactly
when the CANDIDATE'S OWN category is cross-category-sensitive (if only
the accepted candidate's category is, the `0.85` bar applies, though
the gate still permits the merge); and two candidates in different,
non-cross-category-sensitive categories never pass the gate, regardless
of similarity. -/
theorem semantic_gate_amended (video : List String) (t : ℚ) (sim : String → String → ℚ)
    (r : Resource) (rs acc : List Resource) :
    (dedupBySemanticAux video t sim (r :: rs) acc =
      if ∃ u ∈ acc,
          semanticLocalThreshold video t r ≤ sim (embedText r) (embedText u) ∧
            semGate video r u then
        ((dedupBySemanticAux video t sim rs acc).1,
         r :: (dedupBySemanticAux video t sim rs acc).2)
      else
        (r :: (dedupBySemanticAux video t sim rs (acc ++ [r])).1,
         (dedupBySemanticAux video t sim rs (acc ++ [r])).2)) ∧
    semanticLocalThreshold video t r = (if r.getCategory ∈ video then mkRat 88 100 else t) ∧
    ∀ u : Resource, r.getCategory ≠ u.getCategory → r.getCategory ∉ video →
      u.getCategory ∉ video → ¬ semGate video r u := by
  refine ⟨?_, rfl, ?_⟩
  · by_cases h : ∃ u ∈ acc,
        semanticLocalThreshold video t r ≤ sim (embedText r) (embedText u) ∧ semGate video r u
    · have hb : (acc.any fun u =>
          decide (semanticLocalThreshold video t r ≤ sim (embedText r) (embedText u)) &&
            decide (semGate video r u)) = true := by
        simpa [List.any_eq_true, Bool.and_eq_true, decide_eq_true_eq] using h
      rw [dedupBySemanticAux, if_pos hb, if_pos h]
    · have hb : ¬ (acc.any fun u =>
          decide (semanticLocalThreshold video t r ≤ sim (embedText r) (embedText u)) &&
            decide (semGate video r u)) = true := fun hx =>
        h (by simpa [List.any_eq_true, Bool.and_eq_true, decide_eq_true_eq] using hx)
      rw [dedupBySemanticAux, if_neg hb, if_neg h]
  · intro u h1 h2 h3 hg
    rcases hg with hg | hg | hg
    · exact h1 hg
    · exact h2 hg
    · exact h3 hg

/-- Concrete instance of `semantic_gate_amended`: two candidates in
different, non-cross-category-sensitive categories are not merged even
at similarity `0.95`. -/
theorem semantic_gate_amended_witness :
    dedupBySemanticAux ["video"] (mkRat 85 100) (fun _ _ => mkRat 95 100)
        [⟨some "B", some "u2", some "", some "catB"⟩]
        [⟨some "A", some "u1", some "", some "catA"⟩] =
      ([⟨some "B", some "u2", some "", some "catB"⟩], []) ∧
    ¬ semGate ["video"] ⟨some "B", some "u2", some "", some "catB"⟩
        ⟨some "A", some "u1", some "", some "catA"⟩ := by
  have H := semantic_gate_amended ["video"] (mkRat 85 100) (fun _ _ => mkRat 95 100)
    ⟨some "B", some "u2", some "", some "catB"⟩ []
    [⟨some "A", some "u1", some "", some "catA"⟩]
  have hng : ¬ semGate ["video"] ⟨some "B", some "u2", some "", some "catB"⟩
      ⟨some "A", some "u1", some "", some "catA"⟩ :=
    H.2.2 ⟨some "A", some "u1", some "", some "catA"⟩ (by decide) (by decide) (by decide)
  refine ⟨?_, hng⟩
  rw [H.1, if_neg ?_]
  · rfl
  · rintro ⟨u, hu, -, hg⟩
    rcases List.mem_singleton.mp hu with rfl
    exact hng hg
